import Mathlib

/-!
Verification development for the BelAZ haul-truck trip logger (`app.py`).

The program keeps two tables in an embedded SQLite store:

* `records` — one row per logged trip (khodka): timestamp, derived calendar
  day, excavator, dump-site name (otval), truck id, derived truck class,
  base volume, load factor and computed volume;
* `otvals`  — the dump-site catalog: unique name plus an optional length (km).

We embed the store as a pair of lists (`DB`), in insertion order (SQLite
`AUTOINCREMENT` ids are ascending, so `ORDER BY id` is insertion order).
`REAL` volumes are modelled as rationals: every value the program ever
computes (42.0, 75.0, 50.0, factors 1.0 / 0.5 and their products) is a small
dyadic rational, exactly representable in binary floating point, so IEEE
arithmetic on them is exact and agrees with ℚ.

The current wall-clock time read by `insert_record` (via `get_now_tashkent`)
is an environment input; we pass the formatted timestamp and day strings as
explicit parameters.

SQL `ORDER BY` on text columns compares UTF-8 bytes (BINARY collation);
byte order of UTF-8 agrees with code-point order, which `strLE` below
implements. Sorting is done with a structurally recursive insertion sort
(`sortBy`), which computes in the kernel; any sorting algorithm yields the
same result up to equal keys, and no verified property depends on the
resolution of ties.
-/

/-- One row of the `records` table (schema of `init_db`): a logged trip. -/
structure Record where
  ts : String
  day : String
  excavator : String
  otval : String
  truck_id : Int
  truck_class : String
  base_volume : ℚ
  factor : ℚ
  volume : ℚ
  deriving DecidableEq

/-- One row of the `otvals` table: a dump-site catalog entry.
The schema declares `name` UNIQUE; `length` is nullable. -/
structure Otval where
  name : String
  length : Option ℚ
  deriving DecidableEq

/-- The persistent store: the `records` ledger and the `otvals` catalog,
each in insertion (rowid) order.  The `requests` and `jr_records` tables play
no role in any verified claim and are omitted. -/
structure DB where
  records : List Record
  otvals : List Otval
  deriving DecidableEq

/-- Code-point lexicographic comparison of character lists (agrees with
SQLite's byte-wise BINARY collation on UTF-8 text). -/
def strLexLE : List Char → List Char → Bool
  | [], _ => true
  | _ :: _, [] => false
  | a :: as, b :: bs => if a = b then strLexLE as bs else decide (a.val < b.val)

/-- String comparison used to model `ORDER BY` on text columns. -/
def strLE (a b : String) : Bool := strLexLE a.data b.data

/-- Insert an element into a sorted list (core of insertion sort). -/
def insertSorted (le : α → α → Bool) (a : α) : List α → List α
  | [] => [a]
  | b :: bs => if le a b then a :: b :: bs else b :: insertSorted le a bs

/-- Insertion sort; models SQL `ORDER BY` / pandas sorted group keys.
Structurally recursive, hence computable by the kernel. -/
def sortBy (le : α → α → Bool) : List α → List α
  | [] => []
  | a :: as => insertSorted le a (sortBy le as)

/-- The classification rule `get_volume_by_truck_id` of `app.py`:
0–99 → ("130т", 42 m³), 100–140 → ("220т", 75 m³), 200–205 → ("240т", 50 m³),
anything else → the ("unknown", 0) sentinel. -/
def get_volume_by_truck_id (truck_id : Int) : String × ℚ :=
  if 0 ≤ truck_id ∧ truck_id ≤ 99 then ("130т", 42)
  else if 100 ≤ truck_id ∧ truck_id ≤ 140 then ("220т", 75)
  else if 200 ≤ truck_id ∧ truck_id ≤ 205 then ("240т", 50)
  else ("unknown", 0)

/-- The rejection message returned by `insert_record` for an unclassified
truck id. -/
def unclassifiedMsg : String :=
  "Объём для этого БелАЗа не определён (номер вне диапазона)."

/-- `insert_record` of `app.py`: classify the truck id; on the zero sentinel
return the error message and leave the store untouched; otherwise append one
trip row with volume = base_volume × (0.5 if half-load else 1.0) and return
that volume.  `ts`/`day` stand for the formatted current time. -/
def insert_record (db : DB) (excavator otval : String) (truck_id : Int)
    (is_half : Bool) (ts day : String) : DB × Option ℚ × Option String :=
  let truck_class := (get_volume_by_truck_id truck_id).1
  let base_volume := (get_volume_by_truck_id truck_id).2
  if base_volume = 0 then
    (db, none, some unclassifiedMsg)
  else
    let factor : ℚ := if is_half then 1/2 else 1
    let volume := base_volume * factor
    let r : Record :=
      ⟨ts, day, excavator, otval, truck_id, truck_class, base_volume, factor, volume⟩
    ({ db with records := db.records ++ [r] }, some volume, none)

/-- `upsert_otval` of `app.py`: `INSERT ... ON CONFLICT(name) DO UPDATE SET
length = excluded.length` — overwrite the length if the name exists,
otherwise append a fresh row. -/
def upsert_otval (db : DB) (name : String) (length : Option ℚ) : DB :=
  if db.otvals.any (fun o => o.name = name) then
    let updated := db.otvals.map (fun o => if o.name = name then { o with length := length } else o)
    { db with otvals := updated }
  else
    { db with otvals := db.otvals ++ [⟨name, length⟩] }

/-- `delete_otval` of `app.py`: `DELETE FROM otvals WHERE name = ?`. -/
def delete_otval (db : DB) (name : String) : DB :=
  { db with otvals := db.otvals.filter (fun o => ¬ o.name = name) }

/-- `get_otval_length` of `app.py`: `SELECT length FROM otvals WHERE name = ?`
with `fetchone` — `none` when the row is absent, `some row.length` otherwise
(`name` is UNIQUE, so the first match is the only one). -/
def get_otval_length (db : DB) (name : String) : Option (Option ℚ) :=
  match db.otvals.find? (fun o => o.name = name) with
  | none => none
  | some o => some o.length

/-- One step of `ensure_default_otvals`: `INSERT OR IGNORE INTO otvals
(name, length) VALUES (?, NULL)` — under the UNIQUE(name) constraint this
appends only when the name is absent. -/
def insert_or_ignore_otval (db : DB) (name : String) : DB :=
  if db.otvals.any (fun o => o.name = name) then db
  else { db with otvals := db.otvals ++ [⟨name, none⟩] }

/-- The fixed seed list of default dump sites in `ensure_default_otvals`. -/
def default_otvals : List String :=
  ["Перегруз отвал", "2Ё ближний отвал", "2Ё дальний отвал",
   "А4 окисленный отвал", "МОФ-2", "МОФ-3"]

/-- `ensure_default_otvals` of `app.py`: insert-or-ignore each default name. -/
def ensure_default_otvals (db : DB) : DB :=
  default_otvals.foldl insert_or_ignore_otval db

/-- Record ordering for `ORDER BY ts`. -/
def recTsLE (a b : Record) : Bool := strLE a.ts b.ts

/-- `get_daily_details_all` of `app.py`: all trip rows of a day,
`ORDER BY ts`. -/
def get_daily_details_all (db : DB) (day_str : String) : List Record :=
  sortBy recTsLE (db.records.filter (fun r => r.day = day_str))

/-- The `GROUP BY` key of `get_daily_aggregated_all`:
(day, excavator, otval, truck_id). -/
def aggKey (r : Record) : String × String × String × Int :=
  (r.day, r.excavator, r.otval, r.truck_id)

/-- One output row of `get_daily_aggregated_all`:
`COUNT(*) AS trips`, `SUM(volume) AS obem`. -/
structure AggRow where
  day : String
  excavator : String
  otval : String
  truck_id : Int
  trips : Nat
  obem : ℚ
  deriving DecidableEq

/-- Row ordering for `ORDER BY excavator, otval, truck_id`. -/
def aggRowLE (a b : AggRow) : Bool :=
  if a.excavator = b.excavator then
    if a.otval = b.otval then decide (a.truck_id ≤ b.truck_id)
    else strLE a.otval b.otval
  else strLE a.excavator b.excavator

/-- `get_daily_aggregated_all` of `app.py`: trips of the day grouped by
(day, excavator, otval, truck_id) with `COUNT(*)` and `SUM(volume)`,
`ORDER BY excavator, otval, truck_id`. -/
def get_daily_aggregated_all (db : DB) (day_str : String) : List AggRow :=
  let recs := db.records.filter (fun r => r.day = day_str)
  let keys := (recs.map aggKey).dedup
  sortBy aggRowLE (keys.map (fun k =>
    { day := k.1, excavator := k.2.1, otval := k.2.2.1, truck_id := k.2.2.2,
      trips := (recs.filter (fun r => aggKey r = k)).length,
      obem := ((recs.filter (fun r => aggKey r = k)).map Record.volume).sum }))

/-- The pandas group key of `get_otval_summary`: (day, otval, excavator). -/
def sumKey (r : Record) : String × String × String := (r.day, r.otval, r.excavator)

/-- One output row of `get_otval_summary`: the grouped volume sum `obem`
plus the catalog length carried through the left merge on the site name. -/
structure OtvalSummaryRow where
  day : String
  otval : String
  excavator : String
  obem : ℚ
  length : Option ℚ
  deriving DecidableEq

/-- Row ordering for the sorted pandas group keys (day, otval, excavator). -/
def sumRowLE (a b : OtvalSummaryRow) : Bool :=
  if a.day = b.day then
    if a.otval = b.otval then strLE a.excavator b.excavator
    else strLE a.otval b.otval
  else strLE a.day b.day

/-- `get_otval_summary` of `app.py`: the day's trips grouped by
(day, otval, excavator) with `volume` summed to `obem`, left-merged with the
catalog on the site name to carry `length` (the schema keeps `name` UNIQUE,
so the merge matches at most the one row `find?` returns; an empty catalog
leaves `length` absent, exactly as the `df_otvals.empty` branch does, and an
empty day yields the empty frame). -/
def get_otval_summary (db : DB) (day_str : String) : List OtvalSummaryRow :=
  let recs := db.records.filter (fun r => r.day = day_str)
  let keys := (recs.map sumKey).dedup
  sortBy sumRowLE (keys.map (fun k =>
    { day := k.1, otval := k.2.1, excavator := k.2.2,
      obem := ((recs.filter (fun r => sumKey r = k)).map Record.volume).sum,
      length := (db.otvals.find? (fun o => o.name = k.2.1)).bind Otval.length }))

/-! ### Generic sorting and grouping lemmas -/

theorem insertSorted_perm (le : α → α → Bool) (a : α) (l : List α) :
    (insertSorted le a l).Perm (a :: l) := by
  induction l with
  | nil => simp [insertSorted]
  | cons b bs ih =>
    by_cases h : le a b
    · simp [insertSorted, h]
    · rw [insertSorted, if_neg h]
      exact (ih.cons b).trans (List.Perm.swap a b bs)

theorem sortBy_perm (le : α → α → Bool) (l : List α) : (sortBy le l).Perm l := by
  induction l with
  | nil => simp [sortBy]
  | cons a as ih => exact (insertSorted_perm le a (sortBy le as)).trans (ih.cons a)

/-- Partition lemma: summing a function over the groups induced by a
duplicate-free covering key list gives the sum over the whole list. -/
theorem sum_map_groups {α κ : Type} [DecidableEq κ] (key : α → κ) (f : α → ℚ) :
    ∀ keys : List κ, keys.Nodup → ∀ l : List α, (∀ a ∈ l, key a ∈ keys) →
      (keys.map (fun k => ((l.filter (fun a => key a = k)).map f).sum)).sum
        = (l.map f).sum := by
  intro keys
  induction keys with
  | nil =>
    intro _ l hcov
    have hl : l = [] := by
      cases l with
      | nil => rfl
      | cons a as => exact absurd (hcov a (by simp)) (by simp)
    subst hl; simp
  | cons k ks ih =>
    intro hnd l hcov
    have hk : k ∉ ks := (List.nodup_cons.mp hnd).1
    have hnd' : ks.Nodup := (List.nodup_cons.mp hnd).2
    have hperm := List.filter_append_perm (fun a => decide (key a = k)) l
    have hsplit : (l.map f).sum
        = ((l.filter (fun a => key a = k)).map f).sum
          + ((l.filter (fun a => !decide (key a = k))).map f).sum := by
      have := (hperm.map f).sum_eq
      rw [List.map_append, List.sum_append] at this
      exact this.symm
    have htail : ∀ k' ∈ ks,
        l.filter (fun a => key a = k')
          = (l.filter (fun a => !decide (key a = k))).filter
              (fun a => key a = k') := by
      intro k' hk'
      have hkk : k' ≠ k := fun e => hk (e ▸ hk')
      rw [List.filter_filter]
      refine (List.filter_congr ?_)
      intro a _
      by_cases h : key a = k'
      · have hne : ¬ key a = k := fun e => hkk (h.symm.trans e)
        simp [h, hne, hkk]
      · simp [h]
    have hcov' : ∀ a ∈ l.filter (fun a => !decide (key a = k)), key a ∈ ks := by
      intro a ha
      have hmem := List.mem_of_mem_filter ha
      have hpred := List.of_mem_filter ha
      have hne : ¬ key a = k := by simpa using hpred
      rcases List.mem_cons.mp (hcov a hmem) with h | h
      · exact absurd h hne
      · exact h
    have hmap : ks.map (fun k' => ((l.filter (fun a => key a = k')).map f).sum)
        = ks.map (fun k' =>
            (((l.filter (fun a => !decide (key a = k))).filter
                (fun a => key a = k')).map f).sum) :=
      List.map_congr_left (fun k' hk' => by rw [htail k' hk'])
    simp only [List.map_cons, List.sum_cons]
    rw [hmap, ih hnd' _ hcov']
    exact hsplit.symm

/-! ### Claims about the classification rule -/

/-- Claim C1: for every integer truck id, `get_volume_by_truck_id` returns
("130т", 42.0) on [0,99], ("220т", 75.0) on [100,140], ("240т", 50.0) on
[200,205], and the ("unknown", 0.0) sentinel on every other integer
(negatives and [141,199] included). -/
theorem claim_C1 (t : Int) :
    (0 ≤ t ∧ t ≤ 99 → get_volume_by_truck_id t = ("130т", 42))
  ∧ (100 ≤ t ∧ t ≤ 140 → get_volume_by_truck_id t = ("220т", 75))
  ∧ (200 ≤ t ∧ t ≤ 205 → get_volume_by_truck_id t = ("240т", 50))
  ∧ (¬(0 ≤ t ∧ t ≤ 99) → ¬(100 ≤ t ∧ t ≤ 140) → ¬(200 ≤ t ∧ t ≤ 205) →
      get_volume_by_truck_id t = ("unknown", 0)) := by
  unfold get_volume_by_truck_id
  refine ⟨?_, ?_, ?_, ?_⟩
  · intro h; rw [if_pos h]
  · intro h; rw [if_neg (by omega), if_pos h]
  · intro h; rw [if_neg (by omega), if_neg (by omega), if_pos h]
  · intro h1 h2 h3; rw [if_neg h1, if_neg h2, if_neg h3]

/-- Witness for C1 at one point of each band and one outside all bands. -/
theorem claim_C1_witness :
    get_volume_by_truck_id 7 = ("130т", 42)
  ∧ get_volume_by_truck_id 120 = ("220т", 75)
  ∧ get_volume_by_truck_id 203 = ("240т", 50)
  ∧ get_volume_by_truck_id 150 = ("unknown", 0) :=
  ⟨(claim_C1 7).1 (by decide),
   (claim_C1 120).2.1 (by decide),
   (claim_C1 203).2.2.1 (by decide),
   (claim_C1 150).2.2.2 (by decide) (by decide) (by decide)⟩

/-- Claim C9: the classification rule is a pure total function of its
integer argument (in this embedding it is a Lean function, hence
side-effect-free and never failing): every integer yields one of the four
table entries, and the zero volume appears exactly with the "unknown"
label — failure is signaled only through the sentinel. -/
theorem claim_C9 (t : Int) :
    (get_volume_by_truck_id t = ("130т", 42) ∨ get_volume_by_truck_id t = ("220т", 75)
      ∨ get_volume_by_truck_id t = ("240т", 50) ∨ get_volume_by_truck_id t = ("unknown", 0))
  ∧ ((get_volume_by_truck_id t).2 = 0 ↔ (get_volume_by_truck_id t).1 = "unknown") := by
  unfold get_volume_by_truck_id
  by_cases h1 : 0 ≤ t ∧ t ≤ 99
  · rw [if_pos h1]; exact ⟨Or.inl rfl, by decide⟩
  rw [if_neg h1]
  by_cases h2 : 100 ≤ t ∧ t ≤ 140
  · rw [if_pos h2]; exact ⟨Or.inr (Or.inl rfl), by decide⟩
  rw [if_neg h2]
  by_cases h3 : 200 ≤ t ∧ t ≤ 205
  · rw [if_pos h3]; exact ⟨Or.inr (Or.inr (Or.inl rfl)), by decide⟩
  rw [if_neg h3]
  exact ⟨Or.inr (Or.inr (Or.inr rfl)), by decide⟩

/-! ### Claims about trip insertion -/

/-- Claim C2: for a classifiable truck id, `insert_record` appends exactly
one trip row whose stored volume is base_volume × (0.5 if half-load else
1.0), returns that volume with no error, leaves the catalog untouched, and
the returned result does not depend on the excavator and site strings. -/
theorem claim_C2 (db : DB) (exc site : String) (tid : Int) (half : Bool)
    (ts d : String) (h : (get_volume_by_truck_id tid).2 ≠ 0) :
    (insert_record db exc site tid half ts d).1.records
      = db.records ++ [⟨ts, d, exc, site, tid, (get_volume_by_truck_id tid).1, (get_volume_by_truck_id tid).2, if half then (1:ℚ)/2 else 1, (get_volume_by_truck_id tid).2 * (if half then (1:ℚ)/2 else 1)⟩]
  ∧ (insert_record db exc site tid half ts d).1.otvals = db.otvals
  ∧ (insert_record db exc site tid half ts d).2.1
      = some ((get_volume_by_truck_id tid).2 * (if half then (1:ℚ)/2 else 1))
  ∧ (insert_record db exc site tid half ts d).2.2 = none
  ∧ ∀ exc' site' : String,
      (insert_record db exc' site' tid half ts d).2
        = (insert_record db exc site tid half ts d).2 := by
  refine ⟨?_, ?_, ?_, ?_, ?_⟩
  · simp only [insert_record]; rw [if_neg h]
  · simp only [insert_record]; rw [if_neg h]
  · simp only [insert_record]; rw [if_neg h]
  · simp only [insert_record]; rw [if_neg h]
  · intro exc' site'
    simp only [insert_record]
    rw [if_neg h, if_neg h]

/-- Witness for C2: the spec scenario — truck 45, half load, excavator
"E1", site "North Dump" — stores and returns 21 m³. -/
theorem claim_C2_witness :
    (insert_record ⟨[], []⟩ "E1" "North Dump" 45 true "2024-01-01 08:00:00" "2024-01-01").2.1
      = some 21 := by
  have h := claim_C2 ⟨[], []⟩ "E1" "North Dump" 45 true "2024-01-01 08:00:00" "2024-01-01"
    (by decide)
  rw [h.2.2.1]
  norm_num [get_volume_by_truck_id]

/-- Claim C3: inserting an unclassifiable truck id fails with the rejection
message and performs no write — the returned state is the input state, so
any daily aggregate computed afterwards is unchanged. -/
theorem claim_C3 (db : DB) (exc site : String) (tid : Int) (half : Bool)
    (ts d qday : String) (h : (get_volume_by_truck_id tid).2 = 0) :
    insert_record db exc site tid half ts d = (db, none, some unclassifiedMsg)
  ∧ get_daily_aggregated_all (insert_record db exc site tid half ts d).1 qday
      = get_daily_aggregated_all db qday := by
  have he : insert_record db exc site tid half ts d = (db, none, some unclassifiedMsg) := by
    simp only [insert_record]
    rw [if_pos h]
  exact ⟨he, by rw [he]⟩

/-- Witness for C3: the spec scenario — truck 9999 is rejected and the
empty store stays empty, leaving the daily aggregate unchanged. -/
theorem claim_C3_witness :
    insert_record ⟨[], []⟩ "E1" "Перегруз отвал" 9999 false "2024-01-01 08:00:00" "2024-01-01"
      = (⟨[], []⟩, none, some unclassifiedMsg)
  ∧ get_daily_aggregated_all
      (insert_record ⟨[], []⟩ "E1" "Перегруз отвал" 9999 false "2024-01-01 08:00:00" "2024-01-01").1
      "2024-01-01"
      = get_daily_aggregated_all ⟨[], []⟩ "2024-01-01" :=
  claim_C3 ⟨[], []⟩ "E1" "Перегруз отвал" 9999 false "2024-01-01 08:00:00" "2024-01-01"
    "2024-01-01" (by decide)

/-! ### Claims about the site catalog -/

/-- Claim C4: `delete_otval` removes exactly the matching catalog rows and
touches nothing else: the trip ledger keeps its rows (hence row count and
volume sum), and the cross-cut daily aggregate is unchanged for every day. -/
theorem claim_C4 (db : DB) (name d : String) :
    (delete_otval db name).otvals = db.otvals.filter (fun o => ¬ o.name = name)
  ∧ (delete_otval db name).records = db.records
  ∧ (delete_otval db name).records.length = db.records.length
  ∧ ((delete_otval db name).records.map Record.volume).sum
      = (db.records.map Record.volume).sum
  ∧ get_daily_aggregated_all (delete_otval db name) d = get_daily_aggregated_all db d :=
  ⟨rfl, rfl, rfl, rfl, rfl⟩

/-- Claim C10: `insert_record` never consults the site catalog — for every
catalog (the site present, absent or deleted), a classifiable truck id makes
the insert succeed and persist the site string verbatim, and the outcome is
the same for every catalog contents. -/
theorem claim_C10 (recs : List Record) (cat : List Otval) (exc site : String)
    (tid : Int) (half : Bool) (ts d : String)
    (h : (get_volume_by_truck_id tid).2 ≠ 0) :
    (∃ r : Record, r.otval = site
      ∧ insert_record ⟨recs, cat⟩ exc site tid half ts d
          = (⟨recs ++ [r], cat⟩, some r.volume, none))
  ∧ ∀ cat' : List Otval,
      (insert_record ⟨recs, cat'⟩ exc site tid half ts d).2
        = (insert_record ⟨recs, cat⟩ exc site tid half ts d).2
      ∧ (insert_record ⟨recs, cat'⟩ exc site tid half ts d).1.records
        = (insert_record ⟨recs, cat⟩ exc site tid half ts d).1.records := by
  constructor
  · refine ⟨⟨ts, d, exc, site, tid, (get_volume_by_truck_id tid).1, (get_volume_by_truck_id tid).2, if half then (1:ℚ)/2 else 1, (get_volume_by_truck_id tid).2 * (if half then (1:ℚ)/2 else 1)⟩, rfl, ?_⟩
    simp only [insert_record]
    rw [if_neg h]
  · intro cat'
    constructor
    · simp only [insert_record]; rw [if_neg h, if_neg h]
    · simp only [insert_record]; rw [if_neg h, if_neg h]

/-- Witness for C10: inserting at a site absent from the catalog succeeds
and stores the site name verbatim. -/
theorem claim_C10_witness :
    ∃ r : Record, r.otval = "Ghost"
      ∧ insert_record ⟨[], [⟨"МОФ-2", none⟩]⟩ "E1" "Ghost" 5 false "2024-01-01 08:00:00" "2024-01-01"
          = (⟨[] ++ [r], [⟨"МОФ-2", none⟩]⟩, some r.volume, none) :=
  (claim_C10 [] [⟨"МОФ-2", none⟩] "E1" "Ghost" 5 false "2024-01-01 08:00:00" "2024-01-01"
    (by decide)).1

/-! ### Helper lemmas for the catalog operations -/

theorem update_map_names (nm : String) (len : Option ℚ) (l : List Otval) :
    (l.map (fun o => if o.name = nm then { o with length := len } else o)).map Otval.name
      = l.map Otval.name := by
  rw [List.map_map]
  refine List.map_congr_left ?_
  intro o _
  by_cases ho : o.name = nm
  · simp [Function.comp, ho]
  · simp [Function.comp, ho]

theorem update_find? (nm : String) (len : Option ℚ) :
    ∀ l : List Otval, l.any (fun o => o.name = nm) = true →
      (l.map (fun o => if o.name = nm then { o with length := len } else o)).find?
        (fun o => o.name = nm) = some ⟨nm, len⟩ := by
  intro l
  induction l with
  | nil => intro h; simp at h
  | cons o os ih =>
    intro h
    rw [List.map_cons]
    by_cases ho : o.name = nm
    · have hrepl : (if o.name = nm then { o with length := len } else o) = (⟨nm, len⟩ : Otval) := by
        rw [if_pos ho, ← ho]
      rw [hrepl]
      exact List.find?_cons_of_pos _ (by simp)
    · have hrepl : (if o.name = nm then { o with length := len } else o) = o := if_neg ho
      rw [hrepl, List.find?_cons_of_neg _ (by simpa using ho)]
      apply ih
      simpa [List.any_cons, ho] using h

theorem update_countP (nm : String) (len : Option ℚ) :
    ∀ l : List Otval, (l.map Otval.name).Nodup → l.any (fun o => o.name = nm) = true →
      (l.map (fun o => if o.name = nm then { o with length := len } else o)).countP
        (fun o => o.name = nm) = 1 := by
  intro l
  induction l with
  | nil => intro _ h; simp at h
  | cons o os ih =>
    intro hnd h
    rw [List.map_cons, List.countP_cons]
    by_cases ho : o.name = nm
    · have hnotin : o.name ∉ os.map Otval.name := by
        rw [List.map_cons] at hnd
        exact (List.nodup_cons.mp hnd).1
      have htail : (os.map (fun o => if o.name = nm then { o with length := len } else o)).countP
          (fun o => o.name = nm) = 0 := by
        rw [List.countP_eq_zero]
        intro a ha
        rcases List.mem_map.mp ha with ⟨o', ho', rfl⟩
        by_cases h' : o'.name = nm
        · exfalso
          apply hnotin
          have hm : o'.name ∈ os.map Otval.name := List.mem_map_of_mem Otval.name ho'
          rw [h'] at hm
          rw [ho]
          exact hm
        · simp [h']
      have hhead : (if o.name = nm then { o with length := len } else o).name = nm := by
        rw [if_pos ho]; exact ho
      rw [htail]
      simp [hhead]
    · have hh : os.any (fun o => o.name = nm) = true := by
        simpa [List.any_cons, ho] using h
      have hnd' : (os.map Otval.name).Nodup := by
        rw [List.map_cons] at hnd
        exact (List.nodup_cons.mp hnd).2
      have hhead : ¬ (if o.name = nm then { o with length := len } else o).name = nm := by
        rw [if_neg ho]; exact ho
      rw [ih hnd' hh]
      simp [hhead]

theorem names_append_nodup (l : List Otval) (nm : String) (x : Option ℚ)
    (hnd : (l.map Otval.name).Nodup) (habs : l.any (fun o => o.name = nm) = false) :
    ((l ++ [(⟨nm, x⟩ : Otval)]).map Otval.name).Nodup := by
  rw [List.map_append]
  have hnotin : nm ∉ l.map Otval.name := by
    intro hm
    rcases List.mem_map.mp hm with ⟨o, ho, he⟩
    have : l.any (fun o => o.name = nm) = true := List.any_eq_true.mpr ⟨o, ho, by simpa using he⟩
    rw [this] at habs
    simp at habs
  refine List.Nodup.append hnd (by simp) ?_
  simp [List.disjoint_singleton, hnotin]

theorem not_any_countP (l : List Otval) (nm : String)
    (habs : l.any (fun o => o.name = nm) = false) :
    l.countP (fun o => o.name = nm) = 0 := by
  rw [List.countP_eq_zero]
  intro o ho
  intro hp
  have : l.any (fun o => o.name = nm) = true := List.any_eq_true.mpr ⟨o, ho, hp⟩
  rw [this] at habs
  simp at habs

theorem not_any_find? (l : List Otval) (nm : String)
    (habs : l.any (fun o => o.name = nm) = false) :
    l.find? (fun o => o.name = nm) = none := by
  rw [List.find?_eq_none]
  intro o ho hp
  have : l.any (fun o => o.name = nm) = true := List.any_eq_true.mpr ⟨o, ho, hp⟩
  rw [this] at habs
  simp at habs

/-- Claim C5: under the UNIQUE-name invariant, `upsert_otval` keeps names
duplicate-free, leaves exactly one catalog row carrying the upserted name
(re-adding an existing name is an update, never an error — `upsert_otval`
is total), and that row's length is the one of the most recent upsert, a
set length and null alike (last write wins). -/
theorem claim_C5 (db : DB) (name : String) (len : Option ℚ)
    (h : (db.otvals.map Otval.name).Nodup) :
    ((upsert_otval db name len).otvals.map Otval.name).Nodup
  ∧ (upsert_otval db name len).otvals.countP (fun o => o.name = name) = 1
  ∧ get_otval_length (upsert_otval db name len) name = some len := by
  by_cases hex : db.otvals.any (fun o => o.name = name)
  · have hot : (upsert_otval db name len).otvals
        = db.otvals.map (fun o => if o.name = name then { o with length := len } else o) := by
      simp only [upsert_otval]
      rw [if_pos hex]
    refine ⟨?_, ?_, ?_⟩
    · rw [hot, update_map_names]; exact h
    · rw [hot]; exact update_countP name len db.otvals h hex
    · rw [get_otval_length, hot, update_find? name len db.otvals hex]
  · have hex' : db.otvals.any (fun o => o.name = name) = false := by
      simpa using hex
    have hot : (upsert_otval db name len).otvals = db.otvals ++ [⟨name, len⟩] := by
      simp only [upsert_otval]
      rw [if_neg hex]
    refine ⟨?_, ?_, ?_⟩
    · rw [hot]; exact names_append_nodup db.otvals name len h hex'
    · rw [hot, List.countP_append, not_any_countP db.otvals name hex']
      simp
    · rw [get_otval_length, hot, List.find?_append, not_any_find? db.otvals name hex']
      simp

/-- Witness for C5: the spec scenario — upsert ("Pit-A", 3.5) then
("Pit-A", null) leaves exactly one "Pit-A" row, its length null. -/
theorem claim_C5_witness :
    ((upsert_otval (upsert_otval ⟨[], []⟩ "Pit-A" (some (7/2))) "Pit-A" none).otvals.countP
        (fun o => o.name = "Pit-A") = 1)
  ∧ get_otval_length (upsert_otval (upsert_otval ⟨[], []⟩ "Pit-A" (some (7/2))) "Pit-A" none)
        "Pit-A" = some none := by
  have h := claim_C5 (upsert_otval ⟨[], []⟩ "Pit-A" (some (7/2))) "Pit-A" none (by decide)
  exact ⟨h.2.1, h.2.2⟩

/-! ### Idempotence of the default-site seeding -/

theorem ignore_of_present (db : DB) (nm : String)
    (h : db.otvals.any (fun o => o.name = nm) = true) :
    insert_or_ignore_otval db nm = db := by
  simp only [insert_or_ignore_otval]
  rw [if_pos h]

theorem present_after_ignore (db : DB) (nm : String) :
    (insert_or_ignore_otval db nm).otvals.any (fun o => o.name = nm) = true := by
  by_cases h : db.otvals.any (fun o => o.name = nm)
  · rw [ignore_of_present db nm h]; exact h
  · simp only [insert_or_ignore_otval]
    rw [if_neg h]
    simp [List.any_append]

theorem present_mono_ignore (db : DB) (nm m : String)
    (h : db.otvals.any (fun o => o.name = nm) = true) :
    (insert_or_ignore_otval db m).otvals.any (fun o => o.name = nm) = true := by
  by_cases hm : db.otvals.any (fun o => o.name = m)
  · rw [ignore_of_present db m hm]; exact h
  · simp only [insert_or_ignore_otval]
    rw [if_neg hm]
    simp [List.any_append, h]

theorem present_mono_fold (nm : String) :
    ∀ (names : List String) (db : DB),
      db.otvals.any (fun o => o.name = nm) = true →
      (names.foldl insert_or_ignore_otval db).otvals.any (fun o => o.name = nm) = true := by
  intro names
  induction names with
  | nil => intro db h; exact h
  | cons m ms ih =>
    intro db h
    exact ih (insert_or_ignore_otval db m) (present_mono_ignore db nm m h)

theorem present_after_fold (nm : String) :
    ∀ (names : List String) (db : DB), nm ∈ names →
      (names.foldl insert_or_ignore_otval db).otvals.any (fun o => o.name = nm) = true := by
  intro names
  induction names with
  | nil => intro db h; simp at h
  | cons m ms ih =>
    intro db h
    rcases List.mem_cons.mp h with rfl | h
    · exact present_mono_fold nm ms (insert_or_ignore_otval db nm) (present_after_ignore db nm)
    · exact ih (insert_or_ignore_otval db m) h

theorem fold_ignore_of_present :
    ∀ (names : List String) (db : DB),
      (∀ nm ∈ names, db.otvals.any (fun o => o.name = nm) = true) →
      names.foldl insert_or_ignore_otval db = db := by
  intro names
  induction names with
  | nil => intro db _; rfl
  | cons m ms ih =>
    intro db h
    rw [List.foldl_cons, ignore_of_present db m (h m (List.mem_cons_self m ms))]
    exact ih db (fun nm hnm => h nm (List.mem_cons_of_mem m hnm))

theorem fold_ignore_extends :
    ∀ (names : List String) (db : DB),
      ∃ added, (names.foldl insert_or_ignore_otval db).otvals = db.otvals ++ added := by
  intro names
  induction names with
  | nil => intro db; exact ⟨[], by simp⟩
  | cons m ms ih =>
    intro db
    rcases ih (insert_or_ignore_otval db m) with ⟨a, ha⟩
    by_cases hm : db.otvals.any (fun o => o.name = m)
    · rw [List.foldl_cons]
      rw [ignore_of_present db m hm] at ha ⊢
      exact ⟨a, ha⟩
    · refine ⟨⟨m, none⟩ :: a, ?_⟩
      rw [List.foldl_cons, ha]
      simp only [insert_or_ignore_otval]
      rw [if_neg hm]
      simp

theorem fold_ignore_nodup :
    ∀ (names : List String) (db : DB), (db.otvals.map Otval.name).Nodup →
      ((names.foldl insert_or_ignore_otval db).otvals.map Otval.name).Nodup := by
  intro names
  induction names with
  | nil => intro db h; exact h
  | cons m ms ih =>
    intro db h
    refine ih (insert_or_ignore_otval db m) ?_
    by_cases hm : db.otvals.any (fun o => o.name = m)
    · rw [ignore_of_present db m hm]; exact h
    · simp only [insert_or_ignore_otval]
      rw [if_neg hm]
      exact names_append_nodup db.otvals m none h (by simpa using hm)

/-- Claim C6: the default-site seeding is idempotent — a second run of
`ensure_default_otvals` returns the catalog of the first run unchanged;
moreover seeding only appends (existing rows, and in particular their
lengths, are untouched) and never introduces a duplicate name. -/
theorem claim_C6 (db : DB) :
    ensure_default_otvals (ensure_default_otvals db) = ensure_default_otvals db
  ∧ (∃ added, (ensure_default_otvals db).otvals = db.otvals ++ added)
  ∧ ((db.otvals.map Otval.name).Nodup →
      ((ensure_default_otvals db).otvals.map Otval.name).Nodup) := by
  refine ⟨?_, ?_, ?_⟩
  · refine fold_ignore_of_present default_otvals (ensure_default_otvals db) ?_
    intro nm hnm
    exact present_after_fold nm default_otvals db hnm
  · exact fold_ignore_extends default_otvals db
  · intro h
    exact fold_ignore_nodup default_otvals db h

/-- Witness for C6: seeding twice from a catalog that already holds one
site with a set length changes nothing the second time, and the seeded
catalog has duplicate-free names. -/
theorem claim_C6_witness :
    ensure_default_otvals (ensure_default_otvals ⟨[], [⟨"МОФ-2", some 2⟩]⟩)
      = ensure_default_otvals ⟨[], [⟨"МОФ-2", some 2⟩]⟩
  ∧ ((ensure_default_otvals ⟨[], [⟨"МОФ-2", some 2⟩]⟩).otvals.map Otval.name).Nodup := by
  have h := claim_C6 ⟨[], [⟨"МОФ-2", some 2⟩]⟩
  exact ⟨h.1, h.2.2 (by decide)⟩

/-! ### Aggregation claims -/

theorem agg_rows_obem (recs : List Record) :
    (((recs.map aggKey).dedup).map (fun k =>
      ({ day := k.1, excavator := k.2.1, otval := k.2.2.1, truck_id := k.2.2.2,
         trips := (recs.filter (fun r => aggKey r = k)).length,
         obem := ((recs.filter (fun r => aggKey r = k)).map Record.volume).sum } : AggRow))).map
        AggRow.obem
    = ((recs.map aggKey).dedup).map (fun k =>
        ((recs.filter (fun r => aggKey r = k)).map Record.volume).sum) := by
  rw [List.map_map]
  exact List.map_congr_left (fun k _ => rfl)

/-- Claim C7: for every day, the volume sums of the cross-cut aggregate
rows (day/excavator/otval/truck) add up to the total volume of the day's
detail listing — the figure the reporting layer publishes as the
per-excavator summary total (its "УТТ" row is the sum over the detail
rows). -/
theorem claim_C7 (db : DB) (d : String) :
    ((get_daily_aggregated_all db d).map AggRow.obem).sum
      = ((get_daily_details_all db d).map Record.volume).sum := by
  simp only [get_daily_aggregated_all, get_daily_details_all]
  rw [((sortBy_perm aggRowLE _).map AggRow.obem).sum_eq,
      ((sortBy_perm recTsLE _).map Record.volume).sum_eq,
      agg_rows_obem]
  exact sum_map_groups aggKey Record.volume _ (List.nodup_dedup _) _
    (fun r hr => List.mem_dedup.mpr (List.mem_map_of_mem aggKey hr))

theorem filter_day_absorb (records : List Record) (d : String)
    (k : String × String × String) (hk : k.1 = d) :
    (records.filter (fun r => r.day = d)).filter (fun r => sumKey r = k)
      = records.filter (fun r => sumKey r = k) := by
  rw [List.filter_filter]
  refine List.filter_congr ?_
  intro r _
  by_cases hq : sumKey r = k
  · have hd : r.day = d := by
      rw [← hk]
      exact congrArg (fun p => p.1) hq
    simp [hq, hd]
  · simp [hq]

/-- Claim C8: the site summary for a day has exactly one row per
(day, otval, excavator) group of that day's trips, each carrying the group
volume sum and the catalog length found by the name-based left join: a
catalog entry with no trips that day yields no row (every row is witnessed
by a trip), and a trip whose site has no catalog entry still yields a row
whose length is absent (`none`) rather than an error.  The hypothesis is
the schema's UNIQUE(name) invariant, under which the single `find?` match
is the full content of the left join. -/
theorem claim_C8 (db : DB) (d : String)
    (_hcat : (db.otvals.map Otval.name).Nodup) :
    ((get_otval_summary db d).map (fun row => (row.day, row.otval, row.excavator))).Nodup
  ∧ (∀ row ∈ get_otval_summary db d,
      row.day = d
      ∧ (∃ r ∈ db.records, r.day = d ∧ r.otval = row.otval ∧ r.excavator = row.excavator)
      ∧ row.obem = ((db.records.filter
            (fun r => sumKey r = (row.day, row.otval, row.excavator))).map Record.volume).sum
      ∧ row.length = (db.otvals.find? (fun o => o.name = row.otval)).bind Otval.length)
  ∧ (∀ r ∈ db.records, r.day = d →
      ∃ row ∈ get_otval_summary db d, row.otval = r.otval ∧ row.excavator = r.excavator) := by
  have hperm := sortBy_perm sumRowLE
    ((((db.records.filter (fun r => r.day = d)).map sumKey).dedup).map (fun k =>
      ({ day := k.1, otval := k.2.1, excavator := k.2.2,
         obem := (((db.records.filter (fun r => r.day = d)).filter
            (fun r => sumKey r = k)).map Record.volume).sum,
         length := (db.otvals.find? (fun o => o.name = k.2.1)).bind Otval.length } :
        OtvalSummaryRow)))
  refine ⟨?_, ?_, ?_⟩
  · have hnd : ((((((db.records.filter (fun r => r.day = d)).map sumKey).dedup).map (fun k =>
        ({ day := k.1, otval := k.2.1, excavator := k.2.2,
           obem := (((db.records.filter (fun r => r.day = d)).filter
              (fun r => sumKey r = k)).map Record.volume).sum,
           length := (db.otvals.find? (fun o => o.name = k.2.1)).bind Otval.length } :
          OtvalSummaryRow)))).map (fun row => (row.day, row.otval, row.excavator))).Nodup := by
      rw [List.map_map]
      have h2 : (((db.records.filter (fun r => r.day = d)).map sumKey).dedup).map
          ((fun row : OtvalSummaryRow => (row.day, row.otval, row.excavator)) ∘ (fun k =>
            ({ day := k.1, otval := k.2.1, excavator := k.2.2,
               obem := (((db.records.filter (fun r => r.day = d)).filter
                  (fun r => sumKey r = k)).map Record.volume).sum,
               length := (db.otvals.find? (fun o => o.name = k.2.1)).bind Otval.length } :
              OtvalSummaryRow)))
          = (((db.records.filter (fun r => r.day = d)).map sumKey).dedup).map id :=
        List.map_congr_left (fun k _ => rfl)
      rw [h2, List.map_id]
      exact List.nodup_dedup _
    exact ((hperm.map (fun row => (row.day, row.otval, row.excavator))).nodup_iff).mpr hnd
  · intro row hrow
    have hrow' := hperm.mem_iff.mp hrow
    rcases List.mem_map.mp hrow' with ⟨k, hk, rfl⟩
    have hkex : ∃ r ∈ db.records.filter (fun r => r.day = d), sumKey r = k :=
      List.mem_map.mp (List.mem_dedup.mp hk)
    rcases hkex with ⟨r, hrmem, hrk⟩
    have hrday : r.day = d := by
      have := List.of_mem_filter hrmem
      simpa using this
    have hk1 : k.1 = d := by
      rw [← hrday]
      exact (congrArg (fun p => p.1) hrk).symm
    refine ⟨hk1, ⟨r, List.mem_of_mem_filter hrmem, hrday, ?_, ?_⟩, ?_, rfl⟩
    · exact congrArg (fun p => p.2.1) hrk
    · exact congrArg (fun p => p.2.2) hrk
    · show (((db.records.filter (fun r => r.day = d)).filter
          (fun r => sumKey r = k)).map Record.volume).sum
        = ((db.records.filter (fun r => sumKey r = (k.1, k.2.1, k.2.2))).map Record.volume).sum
      rw [filter_day_absorb db.records d k hk1]
  · intro r hr hd
    have hrmem : r ∈ db.records.filter (fun r => r.day = d) :=
      List.mem_filter.mpr ⟨hr, by simpa using hd⟩
    have hkmem : sumKey r ∈ ((db.records.filter (fun r => r.day = d)).map sumKey).dedup :=
      List.mem_dedup.mpr (List.mem_map_of_mem sumKey hrmem)
    refine ⟨_, hperm.mem_iff.mpr (List.mem_map_of_mem _ hkmem), rfl, rfl⟩

/-- Witness for C8: one trip at a site absent from the catalog produces a
summary row for that site and excavator. -/
theorem claim_C8_witness :
    ∃ row ∈ get_otval_summary
        ⟨[⟨"2024-01-01 08:00:00", "2024-01-01", "1Y", "Ghost", 7, "130т", 42, 1, 42⟩],
         [⟨"МОФ-3", some 1⟩]⟩ "2024-01-01",
      row.otval = "Ghost" ∧ row.excavator = "1Y" := by
  have h := (claim_C8
    ⟨[⟨"2024-01-01 08:00:00", "2024-01-01", "1Y", "Ghost", 7, "130т", 42, 1, 42⟩],
     [⟨"МОФ-3", some 1⟩]⟩ "2024-01-01" (by decide)).2.2
    ⟨"2024-01-01 08:00:00", "2024-01-01", "1Y", "Ghost", 7, "130т", 42, 1, 42⟩
    (by simp) rfl
  rcases h with ⟨row, hmem, h1, h2⟩
  exact ⟨row, hmem, h1, h2⟩
